import Mathlib

/-!
# Verification of the expense-tracker ledger engine

A shallow embedding of the ledger application in `src/app.py`: the record
store (CSV persist/load with encoding dispatch and date coercion), the
category catalog, the aggregator (type filter, per-category group-sum,
totals and balance), and the chart data builder.

Amounts are modelled as rationals (the program manipulates decimal
amounts); dates as year/month/day triples, with `none` standing for the
`NaT` sentinel produced by `pd.to_datetime(..., errors='coerce')`.
Strings are Lean `String`s; the CSV wire format is modelled over
`List Char`.
-/

namespace ExpenseTracker

/-- A calendar date, as stored in the `วันที่` column. -/
structure Date where
  year : Nat
  month : Nat
  day : Nat
deriving DecidableEq, Repr

/-- One ledger row, mirroring the five columns
`["วันที่", "ประเภท", "หมวดหมู่", "รายละเอียด", "จำนวนเงิน"]` of the
session DataFrame.  `date = none` models the `NaT` sentinel. -/
structure Record where
  date : Option Date
  rtype : String
  category : String
  description : String
  amount : ℚ
deriving DecidableEq, Repr

/-- The income type label `'รายรับ'` used throughout `app.py`. -/
def incomeType : String := "รายรับ"

/-- The expense type label `'รายจ่าย'` used throughout `app.py`. -/
def expenseType : String := "รายจ่าย"

/-! ## Aggregator -/

/-- `app.py` lines 136-137: `income_df` and `expense_df`, the two
type-filtered views of the session DataFrame. -/
def split_by_type (rs : List Record) : List Record × List Record :=
  (rs.filter (fun r => r.rtype == incomeType),
   rs.filter (fun r => r.rtype == expenseType))

/-- `app.py` lines 161-162: `df['จำนวนเงิน'].sum() if not df.empty else 0`. -/
def total (rs : List Record) : ℚ :=
  if rs.isEmpty then 0 else (rs.map Record.amount).sum

/-- `app.py` line 163: `balance = total_income - total_expense`. -/
def balance (income_total expense_total : ℚ) : ℚ :=
  income_total - expense_total

/-- `total_income` of `app.py` line 161, computed from the income partition. -/
def total_income (rs : List Record) : ℚ := total (split_by_type rs).1

/-- `total_expense` of `app.py` line 162, computed from the expense partition. -/
def total_expense (rs : List Record) : ℚ := total (split_by_type rs).2

/-- Deduplication keeping the first occurrence of each element, the
semantics of a pandas `Index.unique()`. -/
def uniqueFirst {α : Type} [DecidableEq α] : List α → List α
  | [] => []
  | a :: l => a :: uniqueFirst (l.filter (fun x => x != a))
  termination_by l => l.length
  decreasing_by
    simp only [List.length_cons]
    exact Nat.lt_succ_of_le (List.length_filter_le _ _)

/-- `app.py` lines 179-180: `df.groupby('หมวดหมู่')['จำนวนเงิน'].sum()`.
pandas `groupby` emits one entry per category present in the input,
keys sorted, each value the sum of `จำนวนเงิน` over that group. -/
def sum_by_category (rs : List Record) : List (String × ℚ) :=
  ((uniqueFirst (rs.map Record.category)).insertionSort (fun a b => a ≤ b)).map
    (fun c => (c, ((rs.filter (fun r => r.category == c)).map Record.amount).sum))

/-- `income_by_category` of `app.py` line 179. -/
def income_by_category (rs : List Record) : List (String × ℚ) :=
  sum_by_category (split_by_type rs).1

/-- `expense_by_category` of `app.py` line 180. -/
def expense_by_category (rs : List Record) : List (String × ℚ) :=
  sum_by_category (split_by_type rs).2

/-! ## Chart data builder -/

/-- pandas `Series.get(cat, 0)`: value at the key, `0` when absent. -/
def seriesGet (m : List (String × ℚ)) (c : String) : ℚ :=
  (List.lookup c m).getD 0

/-- `app.py` lines 182-185:
`all_categories = pd.concat([income_by_category, expense_by_category]).index.unique()`
followed by the two `get(cat, 0)` comprehensions. -/
def build_series (m1 m2 : List (String × ℚ)) :
    List String × List ℚ × List ℚ :=
  let all_categories := uniqueFirst (m1.map Prod.fst ++ m2.map Prod.fst)
  (all_categories,
   all_categories.map (fun c => seriesGet m1 c),
   all_categories.map (fun c => seriesGet m2 c))

/-- `app.py` line 177: the chart guard
`'รายรับ' in df['ประเภท'].values or 'รายจ่าย' in df['ประเภท'].values`;
when false, the insufficient-data branch of line 217 runs instead. -/
def showChart (rs : List Record) : Bool :=
  rs.any (fun r => r.rtype == incomeType) || rs.any (fun r => r.rtype == expenseType)

/-! ## Category catalog -/

/-- `app.py` lines 85-88: the per-type category option lists. -/
def category_options (t : String) : List String :=
  if t = incomeType then ["เงินรายวัน", "รายได้อื่นๆ"]
  else ["ค่าอาหาร", "ค่าเดินทาง", "ค่าใช้จ่ายอื่นๆ"]

/-- `app.py` lines 60-65: `update_category_options`, the `on_change`
handler that resets the selected category when the type changes. -/
def update_category_options (t : String) : String :=
  if t = incomeType then "เงินรายวัน" else "ค่าอาหาร"

/-- The spec's `default_category(type)`: the first option of the list
for that type. -/
def default_category (t : String) : String := (category_options t).headD ""

/-! ## Record store: the CSV wire format

`app.py` persists the DataFrame with `to_csv(index=False)` (line 118) and
reads it back with `read_csv` followed by
`pd.to_datetime(df['วันที่'], errors='coerce')` (lines 29-30, 41-42).
The wire format is a header line plus one comma-separated line per
record; dates in the fixed `YYYY-MM-DD` calendar format; amounts as
plain decimal text (two fraction digits, the entry form's `%.2f`
format). -/

/-- The decimal digit characters. -/
def digitChar : Nat → Char
  | 0 => '0' | 1 => '1' | 2 => '2' | 3 => '3' | 4 => '4'
  | 5 => '5' | 6 => '6' | 7 => '7' | 8 => '8' | _ => '9'

/-- Whether a character is a decimal digit. -/
def isDigitChar (c : Char) : Bool := 48 ≤ c.toNat && c.toNat ≤ 57

/-- The numeric value of a digit character. -/
def charToDigit (c : Char) : Nat := c.toNat - 48

/-- Decimal rendering of a natural number, most significant digit first. -/
def serializeNat (n : Nat) : List Char :=
  if n = 0 then ['0'] else (Nat.digits 10 n).reverse.map digitChar

/-- Left-pad with `'0'` up to the given width. -/
def padLeft (w : Nat) (cs : List Char) : List Char :=
  List.replicate (w - cs.length) '0' ++ cs

/-- Parse a nonempty all-digit string as a natural number. -/
def parseNat (cs : List Char) : Option Nat :=
  if cs.isEmpty then none
  else if cs.all isDigitChar then
    some (cs.foldl (fun a c => 10 * a + charToDigit c) 0)
  else none

/-- The fixed `YYYY-MM-DD` serialization of a date; the `NaT` sentinel
serializes to the empty field. -/
def serializeDate : Option Date → List Char
  | none => []
  | some d =>
    ['-'].intercalate
      [padLeft 4 (serializeNat d.year), padLeft 2 (serializeNat d.month),
       padLeft 2 (serializeNat d.day)]

/-- Calendar plausibility of a date, as `pd.to_datetime` checks it. -/
def validDate (d : Date) : Bool :=
  decide (1 ≤ d.month) && decide (d.month ≤ 12) &&
  decide (1 ≤ d.day) && decide (d.day ≤ 31)

/-- `pd.to_datetime(s, errors='coerce')` on one stored field: a parsed
date, or the `NaT` sentinel (`none`) when the field does not parse. -/
def parseDate (cs : List Char) : Option Date :=
  match cs.splitOn '-' with
  | [ys, ms, ds] =>
    match parseNat ys, parseNat ms, parseNat ds with
    | some y, some m, some d =>
      if validDate ⟨y, m, d⟩ then some ⟨y, m, d⟩ else none
    | _, _, _ => none
  | _ => none

/-- The decimal text of an amount: whole part, `'.'`, two fraction
digits (the amounts entered through the form are `%.2f` decimals). -/
def serializeAmount (q : ℚ) : List Char :=
  let n := (q * 100).num.toNat
  ['.'].intercalate [serializeNat (n / 100), padLeft 2 (serializeNat (n % 100))]

/-- Parse decimal text back into a rational amount. -/
def parseAmount (cs : List Char) : Option ℚ :=
  match cs.splitOn '.' with
  | [ws, fs] =>
    match parseNat ws, parseNat fs with
    | some w, some f => some ((w : ℚ) + (f : ℚ) / (10 : ℚ) ^ fs.length)
    | _, _ => none
  | [ws] => (parseNat ws).map (fun w => (w : ℚ))
  | _ => none

/-- The header row written by `to_csv` for the five columns. -/
def csvHeader : List Char :=
  "วันที่,ประเภท,หมวดหมู่,รายละเอียด,จำนวนเงิน".data

/-- The five serialized fields of one record, in column order. -/
def rowFields (r : Record) : List (List Char) :=
  [serializeDate r.date, r.rtype.data, r.category.data, r.description.data,
   serializeAmount r.amount]

/-- One CSV line: the five fields joined by commas. -/
def serializeRow (r : Record) : List Char := [','].intercalate (rowFields r)

/-- `to_csv(index=False)` of the whole ledger: header line then one line
per record. -/
def persist (rs : List Record) : List Char :=
  ['\n'].intercalate (csvHeader :: rs.map serializeRow)

/-- Rebuild one record from its split fields; the date coerced with the
`NaT` sentinel on failure (`errors='coerce'`). -/
def parseRow (fields : List (List Char)) : Record :=
  match fields with
  | [ds, ts, cs, des, amt] =>
    { date := parseDate ds, rtype := ⟨ts⟩, category := ⟨cs⟩,
      description := ⟨des⟩, amount := (parseAmount amt).getD 0 }
  | _ => { date := none, rtype := "", category := "", description := "",
           amount := 0 }

/-- Parse a list of CSV data lines into records. -/
def loadRows (rows : List (List Char)) : List Record :=
  rows.map (fun line => parseRow (line.splitOn ','))

/-- `read_csv` on decoded text: split into lines, skip the header,
skip blank lines, parse each remaining line. -/
def parseCsvText (text : List Char) : List Record :=
  loadRows (((text.splitOn '\n').drop 1).filter (fun l => !l.isEmpty))

/-- The backing file as the loader sees it: its byte size and its decode
results under the default `utf-8-sig` codec and the legacy `TIS-620`
fallback (`none` models a decode failure). The codecs themselves are
external collaborators. -/
structure RawFile where
  size : Nat
  utf8sig : Option (List Char)
  tis620 : Option (List Char)

/-- `app.py` lines 24-45: the session-state load block. Absent file or
zero size gives the empty ledger; otherwise read under `utf-8-sig`; on
decode failure retry once under `TIS-620`; if that also fails, degrade
to the empty ledger. -/
def load (file : Option RawFile) : List Record :=
  match file with
  | none => []
  | some f =>
    if f.size = 0 then []
    else
      match f.utf8sig with
      | some text => parseCsvText text
      | none =>
        match f.tis620 with
        | some text => parseCsvText text
        | none => []

/-- `app.py` line 115: `pd.concat([df, new_data], ignore_index=True)` —
append one record at the end of the ledger. -/
def append_transaction (rs : List Record) (r : Record) : List Record :=
  rs ++ [r]

/-- A field value with no delimiter-breaking characters. -/
def goodField (s : String) : Bool :=
  s.data.all (fun c => c != ',' && c != '\n')

/-- A record the round-trip claim quantifies over: a plausible parsed
date, delimiter-free text fields, and a non-negative two-decimal
amount. -/
def ValidRecord (r : Record) : Prop :=
  (match r.date with | some d => validDate d = true | none => False) ∧
  goodField r.rtype = true ∧ goodField r.category = true ∧
  goodField r.description = true ∧
  ∃ n : ℕ, r.amount = (n : ℚ) / 100

/-! ## Sample records used by the witnesses -/

/-- A sample income record. -/
def sampleIncome : Record :=
  { date := some ⟨2024, 1, 5⟩, rtype := incomeType, category := "เงินรายวัน",
    description := "ก", amount := 100 }

/-- A sample expense record. -/
def sampleExpense : Record :=
  { date := some ⟨2024, 1, 6⟩, rtype := expenseType, category := "ค่าอาหาร",
    description := "ข", amount := 40 }

/-- A sample record whose type is neither `'รายรับ'` nor `'รายจ่าย'`. -/
def sampleOther : Record :=
  { date := none, rtype := "โอนย้าย", category := "ค่าอาหาร",
    description := "ค", amount := 7 }

/-! ## Lemmas on `uniqueFirst` -/

theorem mem_uniqueFirst {α : Type} [DecidableEq α] :
    ∀ (l : List α) (x : α), x ∈ uniqueFirst l ↔ x ∈ l
  | [], x => by rw [uniqueFirst]
  | a :: l, x => by
    rw [uniqueFirst]
    by_cases hxa : x = a
    · simp [hxa]
    · simp only [List.mem_cons, hxa, false_or]
      rw [mem_uniqueFirst (l.filter (fun y => y != a)) x]
      simp [List.mem_filter, hxa]
  termination_by l => l.length
  decreasing_by
    simp only [List.length_cons]
    exact Nat.lt_succ_of_le (List.length_filter_le _ _)

theorem nodup_uniqueFirst {α : Type} [DecidableEq α] :
    ∀ l : List α, (uniqueFirst l).Nodup
  | [] => by rw [uniqueFirst]; exact List.nodup_nil
  | a :: l => by
    rw [uniqueFirst]
    refine List.nodup_cons.mpr ⟨?_, nodup_uniqueFirst _⟩
    rw [mem_uniqueFirst]
    simp [List.mem_filter]
  termination_by l => l.length
  decreasing_by
    simp only [List.length_cons]
    exact Nat.lt_succ_of_le (List.length_filter_le _ _)

theorem uniqueFirst_eq_nil {α : Type} [DecidableEq α] (l : List α) :
    uniqueFirst l = [] ↔ l = [] := by
  cases l with
  | nil => simp [uniqueFirst]
  | cons a l => rw [uniqueFirst]; simp

/-! ## Lemmas on `sum_by_category` -/

theorem sum_by_category_keys (rs : List Record) :
    (sum_by_category rs).map Prod.fst =
      (uniqueFirst (rs.map Record.category)).insertionSort (fun a b => a ≤ b) := by
  simp [sum_by_category, List.map_map, Function.comp_def]

theorem mem_keys_sum_by_category (rs : List Record) (c : String) :
    c ∈ (sum_by_category rs).map Prod.fst ↔ ∃ r ∈ rs, r.category = c := by
  rw [sum_by_category_keys]
  rw [(List.perm_insertionSort (fun a b => a ≤ b) _).mem_iff]
  rw [mem_uniqueFirst]
  simp [List.mem_map]

theorem sum_by_category_eq_nil (rs : List Record) :
    sum_by_category rs = [] ↔ rs = [] := by
  unfold sum_by_category
  rw [List.map_eq_nil_iff]
  constructor
  · intro h
    have hlen := (List.perm_insertionSort (fun a b : String => a ≤ b)
      (uniqueFirst (rs.map Record.category))).length_eq
    rw [h] at hlen
    have hu : uniqueFirst (rs.map Record.category) = [] :=
      List.eq_nil_of_length_eq_zero hlen.symm
    have := (uniqueFirst_eq_nil _).mp hu
    exact List.map_eq_nil_iff.mp this
  · intro h; subst h; simp [uniqueFirst, List.insertionSort]

/-! ## Lemmas on digits and numerals -/

theorem digitChar_isDigit (d : Nat) : isDigitChar (digitChar d) = true := by
  rcases d with _|_|_|_|_|_|_|_|_|d <;> rfl

theorem charToDigit_digitChar (d : Nat) (h : d < 10) :
    charToDigit (digitChar d) = d := by
  interval_cases d <;> decide

theorem serializeNat_all_digit (n : Nat) :
    (serializeNat n).all isDigitChar = true := by
  unfold serializeNat
  split
  · decide
  · rw [List.all_eq_true]
    intro c hc
    rcases List.mem_map.mp hc with ⟨d, _, rfl⟩
    exact digitChar_isDigit d

theorem serializeNat_ne_nil (n : Nat) : serializeNat n ≠ [] := by
  unfold serializeNat
  split
  · simp
  · simp only [ne_eq, List.map_eq_nil_iff, List.reverse_eq_nil_iff]
    exact Nat.digits_ne_nil_iff_ne_zero.mpr (by assumption)

theorem padLeft_all_digit (w : Nat) (cs : List Char)
    (h : cs.all isDigitChar = true) :
    (padLeft w cs).all isDigitChar = true := by
  unfold padLeft
  rw [List.all_append, h, Bool.and_true, List.all_eq_true]
  intro c hc
  rw [List.eq_of_mem_replicate hc]
  decide

theorem padLeft_ne_nil (w : Nat) (cs : List Char) (h : cs ≠ []) :
    padLeft w cs ≠ [] := by
  unfold padLeft
  simp [List.append_eq_nil, h]

theorem not_mem_of_all {p : Char → Bool} {c : Char} (hc : p c = false)
    {cs : List Char} (h : cs.all p = true) : c ∉ cs := by
  intro hmem
  rw [List.all_eq_true] at h
  have := h c hmem
  rw [hc] at this
  exact Bool.false_ne_true this

theorem digit_satisfies {c₀ : Char} (h₀ : isDigitChar c₀ = false) :
    ∀ c : Char, isDigitChar c = true → (c != c₀) = true := by
  intro c hc
  rw [bne_iff_ne]
  rintro rfl
  rw [hc] at h₀
  exact Bool.noConfusion h₀

theorem all_weaken {p q : Char → Bool} (hpq : ∀ c, p c = true → q c = true)
    {cs : List Char} (h : cs.all p = true) : cs.all q = true := by
  rw [List.all_eq_true] at h ⊢
  exact fun c hc => hpq c (h c hc)

theorem parseNat_eq (cs : List Char) (h1 : cs ≠ [])
    (h2 : cs.all isDigitChar = true) :
    parseNat cs = some (cs.foldl (fun a c => 10 * a + charToDigit c) 0) := by
  unfold parseNat
  rw [if_neg (by simpa using h1), if_pos h2]

theorem foldl_digit_chars (ds : List Nat) (hds : ∀ d ∈ ds, d < 10) :
    ∀ a : Nat, (ds.map digitChar).foldl (fun x c => 10 * x + charToDigit c) a =
      ds.foldl (fun x d => 10 * x + d) a := by
  induction ds with
  | nil => intro a; rfl
  | cons d ds ih =>
    intro a
    simp only [List.map_cons, List.foldl_cons]
    rw [charToDigit_digitChar d (hds d (by simp))]
    exact ih (fun x hx => hds x (by simp [hx])) _

theorem foldl_base_ten (ds : List Nat) :
    ∀ a : Nat, ds.foldl (fun x d => 10 * x + d) a =
      a * 10 ^ ds.length + Nat.ofDigits 10 ds.reverse := by
  induction ds with
  | nil => intro a; simp [Nat.ofDigits]
  | cons d ds ih =>
    intro a
    simp only [List.foldl_cons, List.length_cons, List.reverse_cons]
    rw [ih (10 * a + d), Nat.ofDigits_append]
    simp only [Nat.ofDigits_cons, Nat.ofDigits_nil, List.length_reverse,
      Nat.cast_id, mul_zero, add_zero, pow_succ]
    ring

theorem serializeNat_val (n : Nat) :
    (serializeNat n).foldl (fun a c => 10 * a + charToDigit c) 0 = n := by
  unfold serializeNat
  split
  · rename_i h0
    subst h0
    decide
  · rename_i h0
    rw [foldl_digit_chars _ (fun d hd =>
      Nat.digits_lt_base (by norm_num) (List.mem_reverse.mp hd))]
    rw [foldl_base_ten, List.reverse_reverse, Nat.ofDigits_digits]
    simp

theorem parseNat_serializeNat (n : Nat) :
    parseNat (serializeNat n) = some n := by
  rw [parseNat_eq _ (serializeNat_ne_nil n) (serializeNat_all_digit n),
    serializeNat_val]

theorem foldl_zero_chars :
    ∀ k : Nat, (List.replicate k '0').foldl (fun a c => 10 * a + charToDigit c) 0 = 0 := by
  intro k
  induction k with
  | zero => rfl
  | succ k ih => rw [List.replicate_succ, List.foldl_cons]; exact ih

theorem parseNat_padLeft_serializeNat (w n : Nat) :
    parseNat (padLeft w (serializeNat n)) = some n := by
  rw [parseNat_eq _ (padLeft_ne_nil _ _ (serializeNat_ne_nil n))
    (padLeft_all_digit _ _ (serializeNat_all_digit n))]
  unfold padLeft
  rw [List.foldl_append, foldl_zero_chars, serializeNat_val]

theorem serializeNat_length_le_two (n : Nat) (h : n < 100) :
    (serializeNat n).length ≤ 2 := by
  unfold serializeNat
  split
  · simp
  · rename_i h0
    rw [List.length_map, List.length_reverse,
      Nat.digits_len 10 n (by norm_num) h0]
    have hlog := (Nat.lt_pow_iff_log_lt (b := 10) (by norm_num) h0).mp
      (show n < 10 ^ 2 by omega)
    omega

theorem padLeft_length (w : Nat) (cs : List Char) (h : cs.length ≤ w) :
    (padLeft w cs).length = w := by
  unfold padLeft
  rw [List.length_append, List.length_replicate]
  omega

/-! ## Lemmas on `intercalate` -/

theorem intercalate_cons_cons {α : Type} (sep a b : List α) (t : List (List α)) :
    sep.intercalate (a :: b :: t) = a ++ sep ++ sep.intercalate (b :: t) := by
  simp [List.intercalate]

theorem intercalate_one {α : Type} (sep a : List α) :
    sep.intercalate [a] = a := by
  simp [List.intercalate]

theorem all_intercalate (p : Char → Bool) (sep : List Char)
    (hsep : sep.all p = true) :
    ∀ ls : List (List Char), (∀ l ∈ ls, l.all p = true) →
      (sep.intercalate ls).all p = true
  | [] => fun _ => by simp [List.intercalate]
  | [a] => fun h => by rw [intercalate_one]; exact h a (by simp)
  | a :: b :: t => fun h => by
    rw [intercalate_cons_cons, List.all_append, List.all_append]
    rw [h a (by simp), hsep,
      all_intercalate p sep hsep (b :: t) (fun l hl => h l (by simp [hl]))]
    rfl

/-! ## Round trips for dates and amounts -/

theorem parseDate_serializeDate (d : Date) (h : validDate d = true) :
    parseDate (serializeDate (some d)) = some d := by
  have hsplit : (serializeDate (some d)).splitOn '-' =
      [padLeft 4 (serializeNat d.year), padLeft 2 (serializeNat d.month),
       padLeft 2 (serializeNat d.day)] := by
    apply List.splitOn_intercalate
    · intro l hl
      have hall : l.all isDigitChar = true := by
        simp only [List.mem_cons, List.not_mem_nil, or_false] at hl
        rcases hl with rfl | rfl | rfl <;>
          exact padLeft_all_digit _ _ (serializeNat_all_digit _)
      exact not_mem_of_all (by decide) hall
    · simp
  simp only [parseDate, hsplit, parseNat_padLeft_serializeNat]
  have hd : (⟨d.year, d.month, d.day⟩ : Date) = d := rfl
  rw [hd, if_pos h]

theorem parseAmount_serializeAmount (q : ℚ) (n : ℕ) (hq : q = (n : ℚ) / 100) :
    parseAmount (serializeAmount q) = some q := by
  have hqn : (q * 100).num.toNat = n := by
    subst hq
    rw [div_mul_cancel₀ _ (by norm_num : (100 : ℚ) ≠ 0), Rat.num_natCast]
    exact Int.toNat_natCast n
  have hsplit : (serializeAmount q).splitOn '.' =
      [serializeNat ((q * 100).num.toNat / 100),
       padLeft 2 (serializeNat ((q * 100).num.toNat % 100))] := by
    apply List.splitOn_intercalate
    · intro l hl
      have hall : l.all isDigitChar = true := by
        simp only [List.mem_cons, List.not_mem_nil, or_false] at hl
        rcases hl with rfl | rfl
        · exact serializeNat_all_digit _
        · exact padLeft_all_digit _ _ (serializeNat_all_digit _)
      exact not_mem_of_all (by decide) hall
    · simp
  simp only [parseAmount, hsplit, parseNat_serializeNat,
    parseNat_padLeft_serializeNat, hqn]
  rw [padLeft_length 2 _ (serializeNat_length_le_two _ (Nat.mod_lt n (by norm_num)))]
  subst hq
  congr 1
  rw [show ((n : ℚ)) = ((100 * (n / 100) + n % 100 : ℕ) : ℚ) by rw [Nat.div_add_mod]]
  push_cast
  field_simp
  ring

/-! ## Round trips for rows and whole files -/

theorem serializeDate_all (p : Char → Bool)
    (hdig : ∀ c, isDigitChar c = true → p c = true) (hdash : p '-' = true)
    (od : Option Date) : (serializeDate od).all p = true := by
  cases od with
  | none => rfl
  | some d =>
    apply all_intercalate p ['-'] (by simp [hdash])
    intro l hl
    simp only [List.mem_cons, List.not_mem_nil, or_false] at hl
    rcases hl with rfl | rfl | rfl <;>
      exact all_weaken hdig (padLeft_all_digit _ _ (serializeNat_all_digit _))

theorem serializeAmount_all (p : Char → Bool)
    (hdig : ∀ c, isDigitChar c = true → p c = true) (hdot : p '.' = true)
    (q : ℚ) : (serializeAmount q).all p = true := by
  show (['.'].intercalate
    [serializeNat ((q * 100).num.toNat / 100),
     padLeft 2 (serializeNat ((q * 100).num.toNat % 100))]).all p = true
  apply all_intercalate p ['.'] (by simp [hdot])
  intro l hl
  simp only [List.mem_cons, List.not_mem_nil, or_false] at hl
  rcases hl with rfl | rfl
  · exact all_weaken hdig (serializeNat_all_digit _)
  · exact all_weaken hdig (padLeft_all_digit _ _ (serializeNat_all_digit _))

theorem serializeRow_no_newline (r : Record) (h : ValidRecord r) :
    (serializeRow r).all (fun c => c != '\n') = true := by
  obtain ⟨_, ht, hc, hdesc, _⟩ := h
  apply all_intercalate _ [','] (by decide)
  intro l hl
  simp only [rowFields, List.mem_cons, List.not_mem_nil, or_false] at hl
  rcases hl with rfl | rfl | rfl | rfl | rfl
  · exact serializeDate_all _ (digit_satisfies (by decide)) (by decide) _
  · exact all_weaken (fun c hcc => (Bool.and_eq_true_iff.mp hcc).2) ht
  · exact all_weaken (fun c hcc => (Bool.and_eq_true_iff.mp hcc).2) hc
  · exact all_weaken (fun c hcc => (Bool.and_eq_true_iff.mp hcc).2) hdesc
  · exact serializeAmount_all _ (digit_satisfies (by decide)) (by decide) _

theorem splitOn_serializeRow (r : Record) (h : ValidRecord r) :
    (serializeRow r).splitOn ',' = rowFields r := by
  apply List.splitOn_intercalate
  · intro l hl
    obtain ⟨_, ht, hc, hdesc, _⟩ := h
    simp only [rowFields, List.mem_cons, List.not_mem_nil, or_false] at hl
    have hall : l.all (fun c => c != ',') = true := by
      rcases hl with rfl | rfl | rfl | rfl | rfl
      · exact serializeDate_all _ (digit_satisfies (by decide)) (by decide) _
      · exact all_weaken (fun c hcc => (Bool.and_eq_true_iff.mp hcc).1) ht
      · exact all_weaken (fun c hcc => (Bool.and_eq_true_iff.mp hcc).1) hc
      · exact all_weaken (fun c hcc => (Bool.and_eq_true_iff.mp hcc).1) hdesc
      · exact serializeAmount_all _ (digit_satisfies (by decide)) (by decide) _
    exact not_mem_of_all (by decide) hall
  · simp [rowFields]

theorem serializeRow_ne_nil (r : Record) : serializeRow r ≠ [] := by
  unfold serializeRow rowFields
  rw [intercalate_cons_cons]
  simp [List.append_eq_nil]

theorem parseRow_serializeRow (r : Record) (h : ValidRecord r) :
    parseRow ((serializeRow r).splitOn ',') = r := by
  rw [splitOn_serializeRow r h]
  obtain ⟨rdate, rt, rc, rdesc, ra⟩ := r
  obtain ⟨hd, _, _, _, n, hn⟩ := h
  rcases rdate with _ | d
  · exact hd.elim
  · simp only [rowFields, parseRow]
    rw [parseDate_serializeDate d hd, parseAmount_serializeAmount ra n hn]
    rfl

theorem splitOn_persist (rs : List Record) (h : ∀ r ∈ rs, ValidRecord r) :
    (persist rs).splitOn '\n' = csvHeader :: rs.map serializeRow := by
  apply List.splitOn_intercalate
  · intro l hl
    rcases List.mem_cons.mp hl with rfl | hl
    · decide
    · rcases List.mem_map.mp hl with ⟨r, hr, rfl⟩
      exact not_mem_of_all (by decide) (serializeRow_no_newline r (h r hr))
  · simp

theorem parseCsvText_persist (rs : List Record) (h : ∀ r ∈ rs, ValidRecord r) :
    parseCsvText (persist rs) = rs := by
  unfold parseCsvText
  rw [splitOn_persist rs h]
  simp only [List.drop_succ_cons, List.drop_zero]
  rw [List.filter_eq_self.mpr ?hne]
  case hne =>
    intro l hl
    rcases List.mem_map.mp hl with ⟨r, _, rfl⟩
    have := serializeRow_ne_nil r
    simp [List.isEmpty_iff, this]
  unfold loadRows
  rw [List.map_map]
  calc List.map ((fun line => parseRow (line.splitOn ',')) ∘ serializeRow) rs
      = List.map id rs :=
        List.map_congr_left (fun r hr => parseRow_serializeRow r (h r hr))
    _ = rs := List.map_id rs

/-! ## Claims -/

/-- C1: `build_series` produces a category axis that is the union of keys
present in either per-category mapping, each category appearing exactly
once (in the stable first-appearance order of the concatenation), and for
every category on that axis `income_values[i]` equals the income mapping's
value for that category or `0` when absent, and `expense_values[i]` equals
the expense mapping's value or `0` when absent. -/
theorem build_series_correct (m1 m2 : List (String × ℚ)) :
    (build_series m1 m2).1.Nodup ∧
    (∀ c : String, c ∈ (build_series m1 m2).1 ↔
      (c ∈ m1.map Prod.fst ∨ c ∈ m2.map Prod.fst)) ∧
    (build_series m1 m2).2.1 =
      (build_series m1 m2).1.map (fun c => (List.lookup c m1).getD 0) ∧
    (build_series m1 m2).2.2 =
      (build_series m1 m2).1.map (fun c => (List.lookup c m2).getD 0) := by
  refine ⟨nodup_uniqueFirst _, ?_, rfl, rfl⟩
  intro c
  show c ∈ uniqueFirst (m1.map Prod.fst ++ m2.map Prod.fst) ↔ _
  rw [mem_uniqueFirst]
  exact List.mem_append

/-- C2: `sum_by_category` returns a mapping in which a category key is
present if and only if at least one record has that category, and the
value at each present key equals exactly the sum of `amount` over exactly
the records with that category. -/
theorem sum_by_category_correct (rs : List Record) (c : String) :
    (c ∈ (sum_by_category rs).map Prod.fst ↔ ∃ r ∈ rs, r.category = c) ∧
    ∀ q : ℚ, (c, q) ∈ sum_by_category rs →
      q = ((rs.filter (fun r => r.category == c)).map Record.amount).sum := by
  refine ⟨mem_keys_sum_by_category rs c, ?_⟩
  intro q hq
  unfold sum_by_category at hq
  rcases List.mem_map.mp hq with ⟨k, _, hk⟩
  have hkc : k = c := congrArg Prod.fst hk
  have hqv := congrArg Prod.snd hk
  simp only at hqv
  rw [← hqv, hkc]

/-- C2 witness: on a concrete two-record ledger, the key `ค่าอาหาร` is
present and its value is the filtered amount sum. -/
theorem sum_by_category_correct_witness :
    (47 : ℚ) = ((List.filter (fun r => r.category == "ค่าอาหาร")
        [sampleExpense, sampleOther]).map Record.amount).sum :=
  (sum_by_category_correct [sampleExpense, sampleOther] "ค่าอาหาร").2 47
    (by
      norm_num [sum_by_category, sampleExpense, sampleOther, uniqueFirst,
        List.insertionSort, List.orderedInsert, incomeType, expenseType,
        List.filter])

/-- C3: `total` equals the sum of `amount` over the records, `total` of
the empty list is `0`, and `balance` is the signed difference
`income_total - expense_total`, negative exactly when expenses exceed
income. -/
theorem total_balance_correct :
    (∀ rs : List Record, total rs = (rs.map Record.amount).sum) ∧
    total [] = 0 ∧
    ∀ a b : ℚ, balance a b = a - b ∧ (balance a b < 0 ↔ a < b) := by
  refine ⟨?_, rfl, ?_⟩
  · intro rs; cases rs <;> simp [total]
  · intro a b; exact ⟨rfl, by simp [balance, sub_neg]⟩

/-- C4: `split_by_type` partitions the records by type, preserving the
relative order of records within each output (both outputs are sublists
of the input); a record is in the income (resp. expense) output iff it is
in the input with the income (resp. expense) type; and a record of any
other type lands in neither output and leaves both totals unchanged. -/
theorem split_by_type_correct (rs : List Record) :
    ((split_by_type rs).1.Sublist rs ∧ (split_by_type rs).2.Sublist rs) ∧
    (∀ r : Record,
      (r ∈ (split_by_type rs).1 ↔ r ∈ rs ∧ r.rtype = incomeType) ∧
      (r ∈ (split_by_type rs).2 ↔ r ∈ rs ∧ r.rtype = expenseType)) ∧
    ∀ r : Record, r.rtype ≠ incomeType → r.rtype ≠ expenseType →
      split_by_type (rs ++ [r]) = split_by_type rs ∧
      total_income (rs ++ [r]) = total_income rs ∧
      total_expense (rs ++ [r]) = total_expense rs := by
  refine ⟨⟨List.filter_sublist _, List.filter_sublist _⟩, ?_, ?_⟩
  · intro r
    constructor
    · simp [split_by_type, List.mem_filter]
    · simp [split_by_type, List.mem_filter]
  · intro r h1 h2
    have hb1 : (r.rtype == incomeType) = false := by simp [h1]
    have hb2 : (r.rtype == expenseType) = false := by simp [h2]
    have hsplit : split_by_type (rs ++ [r]) = split_by_type rs := by
      unfold split_by_type
      rw [List.filter_append, List.filter_append]
      simp [List.filter, hb1, hb2]
    refine ⟨hsplit, ?_, ?_⟩ <;> simp [total_income, total_expense, hsplit]

/-- C4 witness: appending a record of type `โอนย้าย` changes neither
total on a concrete ledger. -/
theorem split_by_type_correct_witness :
    total_income ([sampleIncome, sampleExpense] ++ [sampleOther]) =
      total_income [sampleIncome, sampleExpense] ∧
    total_expense ([sampleIncome, sampleExpense] ++ [sampleOther]) =
      total_expense [sampleIncome, sampleExpense] :=
  ⟨((split_by_type_correct [sampleIncome, sampleExpense]).2.2 sampleOther
      (by decide) (by decide)).2.1,
   ((split_by_type_correct [sampleIncome, sampleExpense]).2.2 sampleOther
      (by decide) (by decide)).2.2⟩

/-- C8: two fixed income options, three fixed expense options; the
default category for a type is the first option of its list; and the
type-change handler always resets the selection to the default of the
new type, which is a member of the new type's option list. -/
theorem category_catalog_correct :
    (category_options incomeType).length = 2 ∧
    (category_options expenseType).length = 3 ∧
    (∀ t : String, default_category t = (category_options t).headD "") ∧
    ∀ t : String, update_category_options t = default_category t ∧
      update_category_options t ∈ category_options t := by
  refine ⟨by decide, by decide, fun t => rfl, ?_⟩
  intro t
  unfold update_category_options default_category category_options
  by_cases h : t = incomeType <;> simp [h]

/-- C9: `build_series` on two empty mappings yields an empty axis and two
empty value lists, and whenever both per-category mappings derived from
the ledger are empty the chart guard is false, so the renderer takes the
insufficient-data branch instead of plotting an empty chart. -/
theorem empty_series_insufficient_data :
    build_series [] [] = ([], [], []) ∧
    ∀ rs : List Record, income_by_category rs = [] → expense_by_category rs = [] →
      showChart rs = false := by
  constructor
  · simp [build_series, uniqueFirst]
  · intro rs h1 h2
    have hi : (split_by_type rs).1 = [] := (sum_by_category_eq_nil _).mp h1
    have he : (split_by_type rs).2 = [] := (sum_by_category_eq_nil _).mp h2
    unfold split_by_type at hi he
    simp only [showChart, Bool.or_eq_false_iff]
    constructor
    · exact List.any_eq_false.mpr (fun r hr => List.filter_eq_nil_iff.mp hi r hr)
    · exact List.any_eq_false.mpr (fun r hr => List.filter_eq_nil_iff.mp he r hr)

/-- C9 witness: a ledger holding only a record of unknown type has empty
per-category mappings and the chart guard is false. -/
theorem empty_series_insufficient_data_witness :
    showChart [sampleOther] = false :=
  empty_series_insufficient_data.2 [sampleOther]
    (by simp [income_by_category, sum_by_category, split_by_type, sampleOther,
      incomeType, List.filter, uniqueFirst, List.insertionSort])
    (by simp [expense_by_category, sum_by_category, split_by_type, sampleOther,
      expenseType, List.filter, uniqueFirst, List.insertionSort])

/-- C10: the three lists returned by `build_series` have equal length:
each value list is exactly as long as the category axis. -/
theorem build_series_lengths (m1 m2 : List (String × ℚ)) :
    (build_series m1 m2).2.1.length = (build_series m1 m2).1.length ∧
    (build_series m1 m2).2.2.length = (build_series m1 m2).1.length := by
  simp [build_series]

/-- C5: for any ledger of delimiter-clean records, persisting and then
loading reproduces the same record sequence; appending `N` records one at
a time (the `pd.concat` append) and loading yields exactly those `N`
records in insertion order; and the full `load` path over a nonempty
backing file that decodes under the default encoding gives the same
result. -/
theorem persist_load_roundtrip (rs : List Record)
    (h : ∀ r ∈ rs, ValidRecord r) :
    parseCsvText (persist rs) = rs ∧
    List.foldl append_transaction [] rs = rs ∧
    parseCsvText (persist (List.foldl append_transaction [] rs)) = rs ∧
    ∀ sz : Nat, sz ≠ 0 →
      load (some ⟨sz, some (persist rs), none⟩) = rs := by
  have hfold : ∀ (ts acc : List Record),
      List.foldl append_transaction acc ts = acc ++ ts := by
    intro ts
    induction ts with
    | nil => intro acc; simp
    | cons t ts ih =>
      intro acc
      rw [List.foldl_cons, ih]
      simp [append_transaction]
  have h1 := parseCsvText_persist rs h
  have h2 : List.foldl append_transaction [] rs = rs := by simpa using hfold rs []
  refine ⟨h1, h2, by rw [h2]; exact h1, ?_⟩
  intro sz hsz
  simp only [load]
  rw [if_neg hsz]
  exact h1

/-- C5 witness: a concrete two-record ledger round-trips through
`persist` and `parseCsvText`. -/
theorem persist_load_roundtrip_witness :
    parseCsvText (persist [sampleIncome, sampleExpense]) =
      [sampleIncome, sampleExpense] :=
  (persist_load_roundtrip [sampleIncome, sampleExpense] (by
    intro r hr
    simp only [List.mem_cons, List.not_mem_nil, or_false] at hr
    rcases hr with rfl | rfl
    · exact ⟨(by decide : validDate (⟨2024, 1, 5⟩ : Date) = true),
        by decide, by decide, by decide, 10000, by norm_num [sampleIncome]⟩
    · exact ⟨(by decide : validDate (⟨2024, 1, 6⟩ : Date) = true),
        by decide, by decide, by decide, 4000, by norm_num [sampleExpense]⟩)).1

/-- C6: `load` returns the empty ledger, rather than an error, when the
file is absent or has zero bytes; when the default `utf-8-sig` decode
fails, the `TIS-620` fallback is attempted and its text is parsed; and
when both decodes fail, `load` degrades to the empty ledger. -/
theorem load_error_handling :
    load none = [] ∧
    (∀ f : RawFile, f.size = 0 → load (some f) = []) ∧
    (∀ f : RawFile, f.size ≠ 0 → f.utf8sig = none →
      ∀ text, f.tis620 = some text → load (some f) = parseCsvText text) ∧
    (∀ f : RawFile, f.utf8sig = none → f.tis620 = none →
      load (some f) = []) := by
  refine ⟨rfl, ?_, ?_, ?_⟩
  · rintro ⟨sz, u, t⟩ hsz
    simp only at hsz
    simp [load, hsz]
  · rintro ⟨sz, u, t⟩ hsz hu text ht
    simp only at hsz hu ht
    subst hu
    subst ht
    simp [load, hsz]
  · rintro ⟨sz, u, t⟩ hu ht
    simp only at hu ht
    subst hu
    subst ht
    by_cases hsz : sz = 0 <;> simp [load, hsz]

/-- C6 witness: a nonempty file that fails the default decode but
decodes under the fallback is loaded from the fallback text. -/
theorem load_error_handling_witness :
    load (some ⟨7, none, some (persist [])⟩) = parseCsvText (persist []) :=
  load_error_handling.2.2.1 ⟨7, none, some (persist [])⟩ (by decide) rfl
    (persist []) rfl

/-- C7: a row whose date field fails to parse is retained with the `NaT`
sentinel as its date — the remaining fields intact and every other row
of the file still loaded — and loading never drops rows. -/
theorem load_unparseable_date (pre post : List (List Char))
    (ds ts cs des amt : List Char)
    (hbad : parseDate ds = none)
    (hfields : ([ds, ts, cs, des, amt].all
      (fun f => f.all (fun c => c != ','))) = true) :
    loadRows (pre ++ ([','].intercalate [ds, ts, cs, des, amt]) :: post) =
      loadRows pre ++
        ({ date := none, rtype := ⟨ts⟩, category := ⟨cs⟩, description := ⟨des⟩,
           amount := (parseAmount amt).getD 0 } : Record) :: loadRows post ∧
    ∀ rows : List (List Char), (loadRows rows).length = rows.length := by
  constructor
  · unfold loadRows
    rw [List.map_append, List.map_cons]
    have hsplit : (([','].intercalate [ds, ts, cs, des, amt]).splitOn ',') =
        [ds, ts, cs, des, amt] := by
      apply List.splitOn_intercalate
      · intro l hl
        rw [List.all_eq_true] at hfields
        exact not_mem_of_all (by decide) (hfields l hl)
      · simp
    rw [hsplit]
    simp only [parseRow, hbad]
  · intro rows
    simp [loadRows]

/-- C7 witness: a concrete row with the unparseable date `13/05/2567`
loads as a record with the sentinel date, not dropped. -/
theorem load_unparseable_date_witness :
    loadRows [[','].intercalate
        ["13/05/2567".data, "รายรับ".data, "เงินรายวัน".data, "ก".data,
         "5.00".data]] =
      [{ date := none, rtype := "รายรับ", category := "เงินรายวัน",
         description := "ก", amount := (parseAmount "5.00".data).getD 0 }] := by
  have h := (load_unparseable_date [] [] "13/05/2567".data "รายรับ".data
    "เงินรายวัน".data "ก".data "5.00".data (by decide) (by decide)).1
  simpa using h

end ExpenseTracker
